import Mathlib

/-!
Verification development for the record deduplication and screening engine of
`src/backend/sysrev_tool.py` (prisma-navigator).  The Python functions are
shallowly embedded as executable Lean definitions; pandas DataFrames become
lists of `(index, record)` pairs, pandas cells that may hold NaN become
`Option String`, and the external `rapidfuzz.fuzz.token_set_ratio` similarity
is modelled as an exact rational following the library's documented algorithm.
-/

set_option maxRecDepth 200000

namespace SysRev

/-! ## String utilities (Python `str.strip`, `str.lower`, `re.sub`) -/

/-- Whitespace characters recognised by Python's `str.strip()` / `\s`
(ASCII subset; the records handled by the tool are ASCII-normalised). -/
def isWs (c : Char) : Bool :=
  c == ' ' || c == '\t' || c == '\n' || c == '\r' || c == '\x0B' || c == '\x0C'

/-- Python `s.strip()`: drop leading and trailing whitespace. -/
def strTrim (s : String) : String :=
  String.mk (((s.data.dropWhile isWs).reverse.dropWhile isWs).reverse)

/-- Replace every maximal run of whitespace by a single space
(`re.sub(r"\s+", " ", s)`); the flag records whether the previous
character was whitespace. -/
def collapseWsGo : Bool → List Char → List Char
  | _, [] => []
  | prevWs, c :: rest =>
    if isWs c then
      if prevWs then collapseWsGo true rest
      else ' ' :: collapseWsGo true rest
    else c :: collapseWsGo false rest

/-- `norm_text` (sysrev_tool.py lines 29-33): non-strings become `""`
(modelled by `none`), otherwise strip, lowercase, collapse whitespace. -/
def norm_text : Option String → String
  | none => ""
  | some s => String.mk (collapseWsGo false ((strTrim s).data.map Char.toLower))

/-- Characters kept by `re.sub(r"[^a-z0-9 ]", "", s)`. -/
def isAlnumSp (c : Char) : Bool :=
  ('a' ≤ c && c ≤ 'z') || ('0' ≤ c && c ≤ '9') || c == ' '

/-! ## Code-point lexicographic string comparison

Python compares strings lexicographically by code point (this is the
comparison pandas uses when sorting string columns and the one behind
Python's `sorted`).  It is defined here as a structurally recursive
boolean so that it evaluates inside the kernel. -/

/-- Strict lexicographic order on character lists, by code point. -/
def lexLt : List Char → List Char → Bool
  | _, [] => false
  | [], _ :: _ => true
  | a :: as, b :: bs =>
    if a.toNat < b.toNat then true
    else if b.toNat < a.toNat then false
    else lexLt as bs

/-- Python `s < t` on strings. -/
def strLt (s t : String) : Bool := lexLt s.data t.data

/-- Python `s <= t` on strings (the total order's reflexive closure). -/
def strLe (s t : String) : Bool := !strLt t s

/-! ## Model of `rapidfuzz.fuzz.token_set_ratio`

The similarity score used on line 260 of sysrev_tool.py comes from the
external rapidfuzz library.  It is modelled here, as an exact rational in
[0, 100], after the library's published algorithm: split both strings into
token sets, and return the maximum of the normalised indel similarities
between (sect, sect+diff_ab), (sect, sect+diff_ba) and
(sect+diff_ab, sect+diff_ba), where sect is the space-joined sorted common
token set and diff_xy the space-joined sorted token difference. -/

/-- Python `s.split()`: split on whitespace runs, no empty tokens.
The accumulator holds the current token reversed. -/
def splitWsGo : List Char → List Char → List String
  | [], acc => if acc.isEmpty then [] else [String.mk acc.reverse]
  | c :: rest, acc =>
    if isWs c then
      if acc.isEmpty then splitWsGo rest []
      else String.mk acc.reverse :: splitWsGo rest []
    else splitWsGo rest (c :: acc)

/-- Python `s.split()`. -/
def splitWs (s : String) : List String := splitWsGo s.data []

/-- Insert a string into a sorted duplicate-free list, keeping it sorted
and duplicate-free (models a Python `set` that is later `sorted()`). -/
def insertStr (x : String) : List String → List String
  | [] => [x]
  | y :: ys => if strLt x y then x :: y :: ys else if x = y then y :: ys else y :: insertStr x ys

/-- The sorted token set of a string: `sorted(set(s.split()))`. -/
def tokSet (s : String) : List String :=
  (splitWs s).foldl (fun acc x => insertStr x acc) []

/-- `" ".join(l)`. -/
def joinSp (l : List String) : String := String.intercalate " " l

/-- One cell row of the longest-common-subsequence dynamic program:
given the character `x`, the rest of the second string, the tail of the
previous row and the cell to the left, produce the rest of the new row. -/
def lcsGo (x : Char) : List Char → List ℕ → ℕ → List ℕ
  | y :: ys, pj :: prest, cur =>
    let v := if y == x then pj + 1 else max cur (prest.headD 0)
    v :: lcsGo x ys prest v
  | _, _, _ => []

/-- Next row of the LCS dynamic program. -/
def lcsNext (ys : List Char) (prev : List ℕ) (x : Char) : List ℕ :=
  0 :: lcsGo x ys prev 0

/-- Length of the longest common subsequence of two character lists. -/
def lcsLen (xs ys : List Char) : ℕ :=
  (xs.foldl (lcsNext ys) (List.replicate (ys.length + 1) 0)).getLastD 0

/-- Indel (insertion/deletion) edit distance between two strings, the
distance underlying rapidfuzz's `ratio`. -/
def indelDist (a b : String) : ℕ :=
  a.length + b.length - 2 * lcsLen a.data b.data

/-- Model of `rapidfuzz.fuzz.token_set_ratio` as an exact rational in
[0, 100] (the library returns the same value as a float). -/
def token_set_ratio (s1 s2 : String) : ℚ :=
  let ta := tokSet s1
  let tb := tokSet s2
  if ta.isEmpty || tb.isEmpty then 0
  else
    let sect := ta.filter (fun x => tb.contains x)
    let dab := ta.filter (fun x => !tb.contains x)
    let dba := tb.filter (fun x => !ta.contains x)
    if !sect.isEmpty && (dab.isEmpty || dba.isEmpty) then 100
    else
      let abJ := joinSp dab
      let baJ := joinSp dba
      let abLen := abJ.length
      let baLen := baJ.length
      let sectLen := (joinSp sect).length
      let bonus : ℕ := if sectLen = 0 then 0 else 1
      let sectAbLen := sectLen + bonus + abLen
      let sectBaLen := sectLen + bonus + baLen
      let total := sectAbLen + sectBaLen
      let dist := indelDist abJ baJ
      let result : ℚ := 100 - 100 * (dist : ℚ) / (total : ℚ)
      let rAb : ℚ := 100 - 100 * ((bonus + abLen : ℕ) : ℚ) / ((sectLen + sectAbLen : ℕ) : ℚ)
      let rBa : ℚ := 100 - 100 * ((bonus + baLen : ℕ) : ℚ) / ((sectLen + sectBaLen : ℕ) : ℚ)
      max result (max rAb rBa)

/-! ## SHA-1 (model of Python's `hashlib.sha1(...).hexdigest()`)

`make_record_id` hashes the UTF-8 bytes of the normalised title with SHA-1
and keeps the first 16 hex characters.  The hash is implemented here over
`ℕ` with explicit `% 2^32` reductions, following FIPS 180. -/

/-- UTF-8 encoding of one code point. -/
def utf8EncChar (n : ℕ) : List ℕ :=
  if n < 0x80 then [n]
  else if n < 0x800 then [0xC0 + n / 0x40, 0x80 + n % 0x40]
  else if n < 0x10000 then
    [0xE0 + n / 0x1000, 0x80 + (n / 0x40) % 0x40, 0x80 + n % 0x40]
  else
    [0xF0 + n / 0x40000, 0x80 + (n / 0x1000) % 0x40, 0x80 + (n / 0x40) % 0x40, 0x80 + n % 0x40]

/-- Python `s.encode("utf-8")` as a list of byte values. -/
def utf8Bytes (s : String) : List ℕ :=
  s.data.flatMap (fun c => utf8EncChar c.toNat)

/-- Truncation to a 32-bit word. -/
def w32 (x : ℕ) : ℕ := x % 4294967296

/-- 32-bit left rotation by `k`. -/
def rotl32 (k x : ℕ) : ℕ := w32 (x <<< k) ||| (x >>> (32 - k))

/-- SHA-1 round constant for round `t`. -/
def sha1K (t : ℕ) : ℕ :=
  if t < 20 then 0x5A827999 else if t < 40 then 0x6ED9EBA1
  else if t < 60 then 0x8F1BBCDC else 0xCA62C1D6

/-- SHA-1 round function for round `t`. -/
def sha1F (t b c d : ℕ) : ℕ :=
  if t < 20 then (b &&& c) ||| ((0xFFFFFFFF ^^^ b) &&& d)
  else if t < 40 then b ^^^ c ^^^ d
  else if t < 60 then (b &&& c) ||| (b &&& d) ||| (c &&& d)
  else b ^^^ c ^^^ d

/-- Extend a 16-word block to the 80-word message schedule
(`fuel` counts the words still to append). -/
def sha1Extend : ℕ → List ℕ → List ℕ
  | 0, ws => ws
  | n + 1, ws =>
    let l := ws.length
    let w := rotl32 1 (ws.getD (l - 3) 0 ^^^ ws.getD (l - 8) 0 ^^^ ws.getD (l - 14) 0 ^^^ ws.getD (l - 16) 0)
    sha1Extend n (ws ++ [w])

/-- The 80 SHA-1 rounds over the message schedule. -/
def sha1Rounds : ℕ → List ℕ → ℕ × ℕ × ℕ × ℕ × ℕ → ℕ × ℕ × ℕ × ℕ × ℕ
  | _, [], st => st
  | t, w :: ws, (a, b, c, d, e) =>
    let tmp := w32 (rotl32 5 a + sha1F t b c d + e + sha1K t + w)
    sha1Rounds (t + 1) ws (tmp, a, rotl32 30 b, c, d)

/-- Compress one 16-word block into the running state. -/
def sha1Block (h : ℕ × ℕ × ℕ × ℕ × ℕ) (block : List ℕ) : ℕ × ℕ × ℕ × ℕ × ℕ :=
  let ws := sha1Extend 64 block
  match h, sha1Rounds 0 ws h with
  | (h0, h1, h2, h3, h4), (a, b, c, d, e) =>
    (w32 (h0 + a), w32 (h1 + b), w32 (h2 + c), w32 (h3 + d), w32 (h4 + e))

/-- Big-endian 8-byte encoding of `n`. -/
def be64 (n : ℕ) : List ℕ :=
  [n / 2 ^ 56 % 256, n / 2 ^ 48 % 256, n / 2 ^ 40 % 256, n / 2 ^ 32 % 256,
   n / 2 ^ 24 % 256, n / 2 ^ 16 % 256, n / 2 ^ 8 % 256, n % 256]

/-- SHA-1 padding: append `0x80`, zeros to 56 mod 64, then the bit length. -/
def sha1Pad (msg : List ℕ) : List ℕ :=
  let l := msg.length
  msg ++ 0x80 :: List.replicate ((120 - (l + 1) % 64) % 64) 0 ++ be64 (8 * l)

/-- Group bytes into big-endian 32-bit words. -/
def toWords : List ℕ → List ℕ
  | b0 :: b1 :: b2 :: b3 :: rest => (((b0 * 256 + b1) * 256 + b2) * 256 + b3) :: toWords rest
  | _ => []

/-- Split a word list into 16-word blocks; the fuel argument (≥ the number
of blocks) keeps the recursion structural. -/
def chunk16 : ℕ → List ℕ → List (List ℕ)
  | 0, _ => []
  | _, [] => []
  | fuel + 1, ws => ws.take 16 :: chunk16 fuel (ws.drop 16)

/-- Hex digit (lowercase, as `hexdigest()` produces). -/
def hexDigit (n : ℕ) : Char :=
  if n < 10 then Char.ofNat (48 + n) else Char.ofNat (87 + n)

/-- Eight-hex-digit rendering of a 32-bit word. -/
def hex8 (n : ℕ) : List Char :=
  [hexDigit (n / 16 ^ 7 % 16), hexDigit (n / 16 ^ 6 % 16), hexDigit (n / 16 ^ 5 % 16),
   hexDigit (n / 16 ^ 4 % 16), hexDigit (n / 16 ^ 3 % 16), hexDigit (n / 16 ^ 2 % 16),
   hexDigit (n / 16 % 16), hexDigit (n % 16)]

/-- `hashlib.sha1(bytes).hexdigest()`. -/
def sha1Hex (msg : List ℕ) : String :=
  let padded := toWords (sha1Pad msg)
  let st := (chunk16 (padded.length + 1) padded).foldl sha1Block
    (0x67452301, 0xEFCDAB89, 0x98BADCFE, 0x10325476, 0xC3D2E1F0)
  match st with
  | (h0, h1, h2, h3, h4) =>
    String.mk (hex8 h0 ++ hex8 h1 ++ hex8 h2 ++ hex8 h3 ++ hex8 h4)

/-! ## The record data model

One row of the standardised DataFrame (`df_standardize`, lines 234-239).
Cells that can hold NaN / a non-string are `Option String` (`none` models a
missing or non-string cell, for which Python's `isinstance(v, str)` test
fails).  Only the fields the verified functions read are carried. -/

/-- A bibliographic record (one DataFrame row). -/
structure Rec where
  source : String
  title : Option String
  abstract : Option String
  doi : Option String
  pmid : Option String
  eid : Option String
  wos_uid : Option String
deriving DecidableEq

/-- A DataFrame row together with its index label. -/
abbrev Row := ℕ × Rec

/-- A pandas DataFrame of records: rows in order, each with its index label
(a fresh frame has labels 0, 1, 2, …). -/
structure Frame where
  rows : List Row
deriving DecidableEq

/-! ## `make_record_id` (lines 35-41) -/

/-- Scan `["doi", "pmid", "eid", "wos_uid"]` in order and return the first
field holding a string that is non-empty after stripping, with its trimmed
value (the loop of lines 36-39). -/
def idScan : List (String × Option String) → Option (String × String)
  | [] => none
  | (k, v) :: rest =>
    match v with
    | some s => if strTrim s == "" then idScan rest else some (k, strTrim s)
    | none => idScan rest

/-- The first non-empty external identifier of a record, with its field name. -/
def firstId (r : Rec) : Option (String × String) :=
  idScan [("doi", r.doi), ("pmid", r.pmid), ("eid", r.eid), ("wos_uid", r.wos_uid)]

/-- `make_record_id` (lines 35-41).  When neither an external identifier nor
a non-empty normalised title exists, the Python code hashes
`now_iso() + json.dumps(rec, sort_keys=True)[:64]`; that impure timestamped
fallback string is passed in as `fallbackSeed`. -/
def make_record_id (fallbackSeed : String) (r : Rec) : String :=
  match firstId r with
  | some kv => kv.1 ++ ":" ++ kv.2
  | none =>
    let t := norm_text r.title
    let t := if t = "" then fallbackSeed else t
    "titlehash:" ++ String.mk ((sha1Hex (utf8Bytes t)).data.take 16)

/-! ## `deduplicate` (lines 241-262) -/

/-- Does the record have some key field holding a non-whitespace string?
(the per-row test of the `mask_nonempty` lambda, line 244). -/
def hasId (r : Rec) : Bool :=
  [r.doi, r.pmid, r.eid, r.wos_uid].any fun v =>
    match v with
    | some s => !(strTrim s == "")
    | none => false

/-- `mask_nonempty.any()` (line 245). -/
def maskAny (rows : List Row) : Bool := rows.any fun x => hasId x.2

/-- The `__idkey` column value (line 246): the RAW value of the first key
field that is non-empty after stripping, and `""` when there is none —
note the `""` default, which every identifier-less record shares. -/
def idkeyScan : List (Option String) → String
  | [] => ""
  | some s :: rest => if strTrim s == "" then idkeyScan rest else s
  | none :: rest => idkeyScan rest

/-- `__idkey` of a record. -/
def idkeyOf (r : Rec) : String := idkeyScan [r.doi, r.pmid, r.eid, r.wos_uid]

/-- `df.drop_duplicates(subset="__idkey", keep="first")` (line 247):
keep a row iff its `__idkey` has not been seen on an earlier row. -/
def dropDupFirst : List Row → List String → List Row
  | [], _ => []
  | x :: rest, seen =>
    let k := idkeyOf x.2
    if k ∈ seen then dropDupFirst rest seen
    else x :: dropDupFirst rest (k :: seen)

/-- The exact-key pass (lines 244-247): runs only when some row has a
non-empty key field. -/
def exactPass (rows : List Row) : List Row :=
  if maskAny rows then dropDupFirst rows [] else rows

/-- The `__title_norm` column value (line 248):
`re.sub(r"[^a-z0-9 ]", "", norm_text(title))`. -/
def title_norm (r : Rec) : String :=
  String.mk ((norm_text r.title).data.filter isAlnumSp)

/-- The sort key of `df.sort_values(["__title_norm", "source"])` (line 249). -/
def rowKey (r : Rec) : String × String := (title_norm r, r.source)

/-- Lexicographic comparison of two sort keys. -/
def keyLe (a b : String × String) : Bool :=
  strLt a.1 b.1 || (a.1 == b.1 && strLe a.2 b.2)

/-- Comparison of two rows by sort key, as pandas' multi-column lexsort
compares Python strings. -/
def rowLe (x y : Row) : Bool := keyLe (rowKey x.2) (rowKey y.2)

/-- Stable insertion of a (later) row into an already sorted list: the new
row goes after every row whose key is ≤ its own, as pandas' stable
multi-column `sort_values` orders ties by position. -/
def insertRow (x : Row) : List Row → List Row
  | [] => [x]
  | y :: ys => if rowLe y x then y :: insertRow x ys else x :: y :: ys

/-- `df.sort_values(["__title_norm", "source"])` (line 249): a stable sort
on `(title_norm, source)`. -/
def sortRows (xs : List Row) : List Row :=
  xs.foldl (fun acc x => insertRow x acc) []

/-- A `(index label, __title_norm)` pair, as zipped on line 251. -/
abbrev Item := ℕ × String

/-- The bucket key `v[:20]` (line 252): the first 20 characters. -/
def bKey (it : Item) : String := String.mk (it.2.data.take 20)

/-- `buckets.setdefault(v[:20], []).append((idx, v))` (line 252): append the
item to its bucket, creating the bucket at the end on first use (Python
dicts preserve insertion order). -/
def addBucket (bs : List (String × List Item)) (k : String) (it : Item) :
    List (String × List Item) :=
  match bs with
  | [] => [(k, [it])]
  | (k', items) :: rest =>
    if k' = k then (k', items ++ [it]) :: rest
    else (k', items) :: addBucket rest k it

/-- The bucket dictionary built by the loop of lines 250-252. -/
def mkBuckets (xs : List Item) : List (String × List Item) :=
  xs.foldl (fun bs it => addBucket bs (bKey it) it) []

/-- `fuzz.token_set_ratio(v_i, v_j) >= fuzzy_threshold` (line 260), for an
arbitrary similarity function `sim`. -/
def matchesAt (sim : String → String → ℚ) (t : ℤ) (v w : String) : Bool :=
  decide ((t : ℚ) ≤ sim v w)

/-- The inner loop of lines 257-260: for each later item `(j, vj)`, skip it
if already dropped, else mark it dropped when the similarity with `vi`
reaches the threshold. -/
def innerLoop (sim : String → String → ℚ) (t : ℤ) (vi : String) :
    List Item → List ℕ → List ℕ
  | [], td => td
  | (j, vj) :: rest, td =>
    innerLoop sim t vi rest
      (if j ∈ td then td else if matchesAt sim t vi vj then j :: td else td)

/-- The outer loop of lines 254-260: each item not yet dropped compares
itself against all later items of its bucket. -/
def outerLoop (sim : String → String → ℚ) (t : ℤ) :
    List Item → List ℕ → List ℕ
  | [], td => td
  | (i, vi) :: rest, td =>
    outerLoop sim t rest (if i ∈ td then td else innerLoop sim t vi rest td)

/-- The full `to_drop` set of lines 253-260: the buckets are processed in
insertion order, sharing one `to_drop` accumulator. -/
def allDrops (sim : String → String → ℚ) (t : ℤ)
    (bs : List (String × List Item)) : List ℕ :=
  bs.foldl (fun td b => outerLoop sim t b.2 td) []

/-- The surviving rows of `deduplicate` (lines 241-261): exact-key pass,
sort by `(title_norm, source)`, fuzzy pass on title-prefix buckets, then
`df.drop(index=list(to_drop))`, which keeps the sorted order. -/
def dedupRows (sim : String → String → ℚ) (t : ℤ) (rows : List Row) : List Row :=
  (sortRows (exactPass rows)).filter fun x =>
    decide (x.1 ∉ allDrops sim t (mkBuckets
      ((sortRows (exactPass rows)).map fun y => (y.1, title_norm y.2))))

/-- `deduplicate(df, fuzzy_threshold)` (lines 241-262): returns the
deduplicated frame and `before - len(dedup_df)`. -/
def deduplicate (sim : String → String → ℚ) (t : ℤ) (df : Frame) : Frame × ℕ :=
  (⟨dedupRows sim t df.rows⟩, df.rows.length - (dedupRows sim t df.rows).length)

/-! ## The caller's frame after `deduplicate`

`deduplicate` receives the caller's DataFrame object and assigns scratch
columns to it in place before rebinding its local name: when some row has a
key field, line 246 adds the `__idkey` column to the caller's object (the
later `drop(columns=...)` acts on the copy returned by `drop_duplicates`,
not on the caller's frame); otherwise line 248 adds `__title_norm` to the
caller's object (the exact-key pass having been skipped).  `PFrame` carries
the extra columns a frame object holds beyond the standard record fields,
and `dedupCallerFrame` is the state of the caller's object after the call. -/

/-- A DataFrame object: standard rows plus named extra columns. -/
structure PFrame where
  rows : List Row
  extraCols : List (String × List String)
deriving DecidableEq

/-- Set a column on a frame object in place (replace it if present,
append it otherwise), as `df["name"] = values` does. -/
def setCol (cols : List (String × List String)) (name : String)
    (vals : List String) : List (String × List String) :=
  match cols with
  | [] => [(name, vals)]
  | (n, v) :: rest =>
    if n = name then (n, vals) :: rest else (n, v) :: setCol rest name vals

/-- The caller's DataFrame object after `deduplicate` returns (lines
244-248): it has gained `__idkey` when any row has a key field, and
`__title_norm` otherwise. -/
def dedupCallerFrame (df : PFrame) : PFrame :=
  if maskAny df.rows then
    { df with extraCols := setCol df.extraCols "__idkey" (df.rows.map fun x => idkeyOf x.2) }
  else
    { df with extraCols := setCol df.extraCols "__title_norm" (df.rows.map fun x => title_norm x.2) }

/-! ## Screening (`keyword_match`, `screen_simple`, `screen_ml`) -/

/-- Is `needle` a prefix of `hay`? -/
def listIsPref : List Char → List Char → Bool
  | [], _ => true
  | _ :: _, [] => false
  | c :: cs, d :: ds => c == d && listIsPref cs ds

/-- Python's substring test `needle in hay` (an empty needle is contained
in everything). -/
def containsSub (needle hay : List Char) : Bool :=
  match hay with
  | [] => needle.isEmpty
  | _ :: rest => listIsPref needle hay || containsSub needle rest

/-- `keyword_match(text, keywords, logic)` (lines 264-267): empty keyword
list never matches; otherwise each keyword is lowercased and tested as a
substring of the normalised text; `"all"` logic requires every hit,
anything else any hit. -/
def keyword_match (text : String) (keywords : List String) (logic : String) : Bool :=
  if keywords.isEmpty then false
  else
    let t := norm_text (some text)
    let hits := keywords.map fun kw => containsSub (kw.data.map Char.toLower) t.data
    if logic = "all" then hits.all id else hits.any id

/-- A record with the screening decision columns attached
(the ScreeningDecision fields of the output frame). -/
structure Screened where
  record : Rec
  screen_mode : String
  screen_include_hit : Bool
  screen_exclude_hit : Bool
  screen_score : ℚ
  screen_relevant : Bool
deriving DecidableEq

/-- `screen_simple` (lines 269-282), per record: title and abstract are
`fillna("")`-ed; with a non-empty include list the include hit is the OR of
the title and abstract matches, otherwise `True`; with an empty exclude
list both exclude series are `False`; score is `np.where(inc, 1.0, 0.0)`
and relevance is `include_hit & ~exclude_hit`.  The output frame is a copy
(`df.copy()`, line 276) with `screen_mode = "simple"`. -/
def screen_simple (include_kw exclude_kw : List String) (inc_logic exc_logic : String)
    (df : List Rec) : List Screened :=
  df.map fun r =>
    let tTitle := (r.title.getD "")
    let tAbs := (r.abstract.getD "")
    let incT := keyword_match tTitle include_kw inc_logic
    let incA := keyword_match tAbs include_kw inc_logic
    let inc := if include_kw.isEmpty then true else (incT || incA)
    let excT := if exclude_kw.isEmpty then false else keyword_match tTitle exclude_kw exc_logic
    let excA := if exclude_kw.isEmpty then false else keyword_match tAbs exclude_kw exc_logic
    let exc := excT || excA
    { record := r, screen_mode := "simple", screen_include_hit := inc,
      screen_exclude_hit := exc, screen_score := if inc then 1 else 0,
      screen_relevant := inc && !exc }

/-- `screen_ml` (lines 305-316).  The filesystem check
`os.path.exists(model_path)` and `joblib.load` are modelled by the
`model` argument: `none` means no model file exists (line 306 raises a
`RuntimeError` whose message names the path), `some p` is the loaded
pipeline, viewed as the map from the joined `title + " " + abstract` text
to the predicted positive-class probability (line 309). -/
def screen_ml (model_path : String) (model : Option (String → ℚ))
    (df : List Rec) (threshold : ℚ) : Except String (List Screened) :=
  match model with
  | none => Except.error ("Modelo não encontrado: " ++ model_path ++ ". Rode 'train-ml'.")
  | some p => Except.ok (df.map fun r =>
      let prob := p ((r.title.getD "") ++ " " ++ (r.abstract.getD ""))
      { record := r, screen_mode := "ml", screen_include_hit := decide (threshold ≤ prob),
        screen_exclude_hit := false, screen_score := prob,
        screen_relevant := decide (threshold ≤ prob) })

/-! ## `compute_metrics` (lines 318-327) -/

/-- A screened row as `compute_metrics` reads it. -/
structure ScreenRow where
  record_id : String
  screen_relevant : Bool
deriving DecidableEq

/-- A row of the labels table (`label` is `astype(int)`-ed, line 321). -/
structure LabelRow where
  record_id : String
  label : ℤ
deriving DecidableEq

/-- The inner merge on `record_id` (line 319): every screened row joined
with every label row sharing its `record_id`, as `(screen_relevant, label)`
pairs. -/
def joinRows (scr : List ScreenRow) (lab : List LabelRow) : List (Bool × ℤ) :=
  scr.flatMap fun s =>
    (lab.filter fun l => l.record_id == s.record_id).map fun l =>
      (s.screen_relevant, l.label)

/-- The result of `compute_metrics`: the sentinel note for an empty join
(line 320), or the statistics dictionary of line 327. -/
inductive MetricsResult where
  | noOverlap
  | stats (tp fp fn tn : ℕ) (prec rcl f1 : ℚ) (nnr : Option ℚ)
deriving DecidableEq

/-- `compute_metrics` (lines 318-327), with `y_pred = screen_relevant
.astype(int)` so `y_pred == 1` is exactly `screen_relevant`. -/
def compute_metrics (scr : List ScreenRow) (lab : List LabelRow) : MetricsResult :=
  let m := joinRows scr lab
  if m.isEmpty then MetricsResult.noOverlap
  else
    let tp := (m.filter fun r => r.2 == 1 && r.1).length
    let fp := (m.filter fun r => r.2 == 0 && r.1).length
    let fn := (m.filter fun r => r.2 == 1 && !r.1).length
    let tn := (m.filter fun r => r.2 == 0 && !r.1).length
    let precision : ℚ := if 0 < tp + fp then (tp : ℚ) / ((tp : ℚ) + (fp : ℚ)) else 0
    let rcl : ℚ := if 0 < tp + fn then (tp : ℚ) / ((tp : ℚ) + (fn : ℚ)) else 0
    let f1 : ℚ := if 0 < precision + rcl then 2 * precision * rcl / (precision + rcl) else 0
    let nnr : Option ℚ := if 0 < precision then some (1 / precision) else none
    MetricsResult.stats tp fp fn tn precision rcl f1 nnr

/-- Invariant of the bucket dictionary while the loop of lines 250-252 has
consumed the item prefix `p`: every bucket holds exactly the items of `p`
with its key, bucket keys are distinct, and keys absent from the
dictionary have no items in `p`. -/
def bucketsInv (p : List Item) (bs : List (String × List Item)) : Prop :=
  (∀ kb ∈ bs, kb.2 = p.filter fun x => bKey x == kb.1) ∧
  (bs.map Prod.fst).Nodup ∧
  (∀ k, k ∉ bs.map Prod.fst → p.filter (fun x => bKey x == k) = [])

/-! ## Concrete test fixtures -/

/-- A record with a title and no external identifiers. -/
def mkTitleRec (src ti : String) : Rec :=
  { source := src, title := some ti, abstract := none,
    doi := none, pmid := none, eid := none, wos_uid := none }

/-- A record carrying a DOI. -/
def recDoiA : Rec :=
  { source := "pubmed", title := some "alpha", abstract := none,
    doi := some "10.1/x", pmid := none, eid := none, wos_uid := none }

/-- An identifier-less record. -/
def recNoId1 : Rec := mkTitleRec "pubmed" "beta"

/-- Another identifier-less record, with an unrelated title. -/
def recNoId2 : Rec := mkTitleRec "wos" "completely different title"

/-- Four identifier-less records in one title-prefix bucket, chosen so that
the second is within similarity 97.06 of the first, the third and fourth
contain all tokens of the second (similarity 100 with it), and every other
pair is below similarity 87. -/
def frameC2 : Frame := ⟨[
  (0, mkTitleRec "s" "aaaaaaaaaaaaaaaaaaaa b qqqqqqqqqqu"),
  (1, mkTitleRec "s" "aaaaaaaaaaaaaaaaaaaa b qqqqqqqqqqv"),
  (2, mkTitleRec "s" "aaaaaaaaaaaaaaaaaaaa b qqqqqqqqqqv ssssssssss"),
  (3, mkTitleRec "s" "aaaaaaaaaaaaaaaaaaaa b qqqqqqqqqqv tttttttttt")]⟩

/-- A one-record DataFrame object with no extra columns. -/
def pframeC3 : PFrame := ⟨[(0, recDoiA)], []⟩

/-- The record of spec Scenario C. -/
def recScenC : Rec := mkTitleRec "pubmed" "A review of cancer treatments"

/-- Scenario C screened by the rule classifier: both keyword lists hit,
so the record is not relevant. -/
def screenedScenC : Screened :=
  { record := recScenC, screen_mode := "simple", screen_include_hit := true,
    screen_exclude_hit := true, screen_score := 1, screen_relevant := false }

/-- Scenario C's record screened by a constant-probability-1 model at
threshold 1. -/
def screenedMlC4 : Screened :=
  { record := recScenC, screen_mode := "ml", screen_include_hit := true,
    screen_exclude_hit := false, screen_score := 1, screen_relevant := true }

/-- A record whose DOI carries surrounding whitespace. -/
def recId1 : Rec :=
  { source := "pubmed", title := some "alpha", abstract := none,
    doi := some " 10.1/x ", pmid := some "42", eid := none, wos_uid := none }

/-- A record with the same trimmed DOI and different other fields. -/
def recId2 : Rec :=
  { source := "scopus", title := some "something else", abstract := none,
    doi := some "10.1/x", pmid := none, eid := some "2-s2.0-1", wos_uid := none }

/-- An identifier-less record with a messy title. -/
def recT1 : Rec := mkTitleRec "pubmed" "  Deep   Learning  "

/-- An identifier-less record whose title differs only in whitespace
and case. -/
def recT2 : Rec := mkTitleRec "wos" "deep learning"

/-- Screened rows realising spec Scenario D predictions `[1,0,0,1]`. -/
def scrD : List ScreenRow :=
  [⟨"a", true⟩, ⟨"b", false⟩, ⟨"c", false⟩, ⟨"d", true⟩]

/-- Label rows realising spec Scenario D truth `[1,1,0,0]`. -/
def labD : List LabelRow :=
  [⟨"a", 1⟩, ⟨"b", 1⟩, ⟨"c", 0⟩, ⟨"d", 0⟩]

/-! ## Sanity check of the SHA-1 model -/

/-- FIPS 180 test vector: SHA-1 of `"abc"`. -/
theorem sha1_testvector_abc :
    sha1Hex (utf8Bytes "abc") = "a9993e364706816aba3e25717850c26c9cd0d89d" := by
  decide

/-! ## Claim C1 -/

/-- C1: the claim states that in the exact-key pass of `deduplicate` every
record without a non-empty external identifier survives unchanged and only
records sharing a non-empty identifier are grouped.  The code instead keys
every identifier-less record on the shared default `""`, so as soon as one
record in the collection has an identifier, all identifier-less records
after the first are dropped by this pass: here row 2, which has no
identifier and a title unrelated to row 1's, is eliminated. -/
theorem claim_C1_exact_pass_drops_idless :
    exactPass [(0, recDoiA), (1, recNoId1), (2, recNoId2)] = [(0, recDoiA), (1, recNoId1)]
    ∧ hasId recNoId2 = false := by
  constructor <;> decide

/-! ## Claim C2 -/

/-- C2: the claim that raising `fuzzy_threshold` never increases the number
of removed duplicates is false.  On `frameC2`, threshold 90 lets the first
record absorb the second, which then cannot absorb the third and fourth
(1 removal), while threshold 98 keeps the second record alive to absorb
both of its supersets (2 removals). -/
theorem claim_C2_counterexample :
    ¬ ∀ (df : Frame) (t1 t2 : ℤ), t1 ≤ t2 →
      (deduplicate token_set_ratio t2 df).2 ≤ (deduplicate token_set_ratio t1 df).2 := by
  intro h
  exact absurd (h frameC2 90 98 (by decide)) (by with_unfolding_all decide)

/-- C2 (amended): raising the threshold shrinks the set of record pairs the
fuzzy pass considers duplicates — the pairwise match test is antitone in
the threshold — but the greedy marking makes the removed-duplicate count
itself non-monotone. -/
theorem claim_C2_pair_match_antitone (t1 t2 : ℤ) (v w : String) (h1 : t1 ≤ t2)
    (h2 : matchesAt token_set_ratio t2 v w = true) :
    matchesAt token_set_ratio t1 v w = true := by
  have h2' : (t2 : ℚ) ≤ token_set_ratio v w := of_decide_eq_true h2
  have h1' : (t1 : ℚ) ≤ (t2 : ℚ) := by exact_mod_cast h1
  exact decide_eq_true (le_trans h1' h2')

/-- C2 witness: the amended antitonicity applied at threshold pair (90, 98)
on a concrete matching pair of normalised titles. -/
theorem claim_C2_witness :
    ((90 : ℤ) ≤ 98 ∧ matchesAt token_set_ratio 98 "a b" "a b" = true) ∧
    matchesAt token_set_ratio 90 "a b" "a b" = true :=
  ⟨⟨by decide, by with_unfolding_all decide⟩,
    claim_C2_pair_match_antitone 90 98 "a b" "a b" (by decide) (by with_unfolding_all decide)⟩

/-! ## Claim C3 -/

/-- C3: the claim states that `deduplicate` does not mutate the collection
passed to it.  The code assigns the scratch column `__idkey` (line 246) —
or `__title_norm` (line 248) when no record has an identifier — to the
caller's DataFrame object before rebinding its local name, so after the
call the caller's frame has gained a column: on a one-record frame with a
DOI the caller's object now carries `__idkey`. -/
theorem claim_C3_caller_frame_gains_column :
    (dedupCallerFrame pframeC3).extraCols = [("__idkey", ["10.1/x"])]
    ∧ pframeC3.extraCols = [] ∧ dedupCallerFrame pframeC3 ≠ pframeC3 := by
  refine ⟨by decide, rfl, by decide⟩

/-! ## Claim C4 -/

/-- C4: the claim states `screen_mode = "rule"` for the rule variant; the
code attaches the string `"simple"` (line 277), so the claim fails on any
record it classifies. -/
theorem claim_C4_counterexample :
    (screen_simple ["cancer"] ["review"] "any" "any" [recScenC]).map
      (fun s => s.screen_mode) = ["simple"] ∧ "simple" ≠ "rule" := by
  constructor <;> decide

/-- C4 (amended): every record classified by the rule variant carries
`screen_mode = "simple"` and every record classified by the model variant
carries `screen_mode = "ml"`. -/
theorem claim_C4_amended (inc exc : List String) (il el : String) (df : List Rec)
    (mp : String) (p : String → ℚ) (thr : ℚ) :
    (∀ s ∈ screen_simple inc exc il el df, s.screen_mode = "simple") ∧
    (∀ out, screen_ml mp (some p) df thr = Except.ok out →
      ∀ s ∈ out, s.screen_mode = "ml") := by
  constructor
  · intro s hs
    simp only [screen_simple, List.mem_map] at hs
    obtain ⟨r, _, rfl⟩ := hs
    rfl
  · intro out hout s hs
    simp only [screen_ml, Except.ok.injEq] at hout
    subst hout
    simp only [List.mem_map] at hs
    obtain ⟨r, _, rfl⟩ := hs
    rfl

/-- C4 witness: the amended statement applied to Scenario C for the rule
variant and to a constant-probability-1 model for the model variant. -/
theorem claim_C4_witness :
    (screenedScenC ∈ screen_simple ["cancer"] ["review"] "any" "any" [recScenC] ∧
      screen_ml "m" (some fun _ => 1) [recScenC] 1 = Except.ok [screenedMlC4] ∧
      screenedMlC4 ∈ [screenedMlC4]) ∧
    screenedScenC.screen_mode = "simple" ∧ screenedMlC4.screen_mode = "ml" :=
  ⟨⟨by with_unfolding_all decide, by with_unfolding_all rfl, by decide⟩,
    (claim_C4_amended ["cancer"] ["review"] "any" "any" [recScenC] "m" (fun _ => 1) 1).1
        screenedScenC (by with_unfolding_all decide),
    (claim_C4_amended ["cancer"] ["review"] "any" "any" [recScenC] "m" (fun _ => 1) 1).2
        [screenedMlC4] (by with_unfolding_all rfl) screenedMlC4 (by decide)⟩

/-! ## Claim C6 -/

/-- C6: the Identity Resolver is deterministic on identifying content.  Two
records whose first non-empty priority field is the same field with the
same trimmed value receive the identical ID `"<field>:<trimmed value>"`;
two identifier-less records whose titles normalise identically (equal
after trimming, lowercasing and whitespace collapsing) and non-emptily
receive the identical `"titlehash:"` ID built from the first 16 hex
characters of the SHA-1 of the normalised title. -/
theorem claim_C6_identity (r1 r2 : Rec) (seed1 seed2 : String) :
    (∀ k v, firstId r1 = some (k, v) → firstId r2 = some (k, v) →
      make_record_id seed1 r1 = k ++ ":" ++ v ∧ make_record_id seed2 r2 = k ++ ":" ++ v) ∧
    (firstId r1 = none → firstId r2 = none →
      norm_text r1.title = norm_text r2.title → norm_text r1.title ≠ "" →
      make_record_id seed1 r1 =
        "titlehash:" ++ String.mk ((sha1Hex (utf8Bytes (norm_text r1.title))).data.take 16) ∧
      make_record_id seed1 r1 = make_record_id seed2 r2) := by
  constructor
  · intro k v h1 h2
    constructor
    · simp [make_record_id, h1]
    · simp [make_record_id, h2]
  · intro h1 h2 heq hne
    have e1 : make_record_id seed1 r1 =
        "titlehash:" ++ String.mk ((sha1Hex (utf8Bytes (norm_text r1.title))).data.take 16) := by
      simp only [make_record_id, h1]
      rw [if_neg hne]
    have e2 : make_record_id seed2 r2 =
        "titlehash:" ++ String.mk ((sha1Hex (utf8Bytes (norm_text r2.title))).data.take 16) := by
      simp only [make_record_id, h2]
      rw [if_neg (heq ▸ hne)]
    exact ⟨e1, by rw [e1, e2, heq]⟩

/-- C6 witness: both parts instantiated — two records sharing trimmed DOI
`10.1/x` (one with surrounding whitespace), and two identifier-less records
whose titles differ only in whitespace and case. -/
theorem claim_C6_witness :
    ((firstId recId1 = some ("doi", "10.1/x") ∧ firstId recId2 = some ("doi", "10.1/x")) ∧
      make_record_id "s1" recId1 = "doi:10.1/x" ∧ make_record_id "s2" recId2 = "doi:10.1/x") ∧
    ((firstId recT1 = none ∧ firstId recT2 = none ∧
        norm_text recT1.title = norm_text recT2.title ∧ norm_text recT1.title ≠ "") ∧
      make_record_id "s1" recT1 = make_record_id "s2" recT2) :=
  ⟨⟨⟨by decide, by decide⟩,
      (claim_C6_identity recId1 recId2 "s1" "s2").1 "doi" "10.1/x" (by decide) (by decide)⟩,
    ⟨⟨by decide, by decide, by decide, by decide⟩,
      ((claim_C6_identity recT1 recT2 "s1" "s2").2 (by decide) (by decide)
        (by decide) (by decide)).2⟩⟩

/-! ## Claim C7 -/

/-- C7: rule-variant screening decisions.  For every screened record: an
empty include list forces `include_hit = true`; an empty exclude list
forces `exclude_hit = false`; the score is 1.0 exactly when the include
hit fired and 0.0 otherwise; and relevance is `include_hit AND NOT
exclude_hit`. -/
theorem claim_C7_rule_screening (inc exc : List String) (il el : String)
    (df : List Rec) (s : Screened) (hs : s ∈ screen_simple inc exc il el df) :
    (inc = [] → s.screen_include_hit = true) ∧
    (exc = [] → s.screen_exclude_hit = false) ∧
    s.screen_score = (if s.screen_include_hit then 1 else 0) ∧
    s.screen_relevant = (s.screen_include_hit && !s.screen_exclude_hit) := by
  simp only [screen_simple, List.mem_map] at hs
  obtain ⟨r, _, rfl⟩ := hs
  refine ⟨?_, ?_, rfl, rfl⟩
  · rintro rfl
    simp
  · rintro rfl
    simp

/-- C7 witness: Scenario C — include `["cancer"]`, exclude `["review"]`,
logic any/any on title "A review of cancer treatments" gives
`include_hit = true`, `exclude_hit = true`, `relevant = false`. -/
theorem claim_C7_witness :
    (screenedScenC ∈ screen_simple ["cancer"] ["review"] "any" "any" [recScenC] ∧
      screenedScenC.screen_include_hit = true ∧ screenedScenC.screen_exclude_hit = true ∧
      screenedScenC.screen_relevant = false) ∧
    screenedScenC.screen_score = (if screenedScenC.screen_include_hit then 1 else 0) ∧
    screenedScenC.screen_relevant =
      (screenedScenC.screen_include_hit && !screenedScenC.screen_exclude_hit) :=
  ⟨⟨by with_unfolding_all decide, by decide, by decide, by decide⟩,
    ((claim_C7_rule_screening ["cancer"] ["review"] "any" "any" [recScenC] screenedScenC
      (by with_unfolding_all decide)).2).2⟩

/-! ## Claim C8 -/

/-- C8: the Metrics Evaluator never divides by zero: an empty `record_id`
join yields the sentinel no-overlap result, and otherwise every statistic
follows the guarded formulas — precision `tp/(tp+fp)` or 0 on a zero
denominator, recall `tp/(tp+fn)` or 0, F1 `2pr/(p+r)` or 0, and `nnr`
equal to `1/precision` exactly when precision is positive and absent
otherwise (precision and recall are in addition always non-negative, so
the guards cover all cases). -/
theorem claim_C8_metrics_guarded (scr : List ScreenRow) (lab : List LabelRow) :
    (compute_metrics scr lab = MetricsResult.noOverlap ↔ joinRows scr lab = []) ∧
    (∀ tp fp fn tn p r f nnr,
      compute_metrics scr lab = MetricsResult.stats tp fp fn tn p r f nnr →
        (0 ≤ p ∧ 0 ≤ r) ∧
        (tp + fp = 0 → p = 0) ∧ (tp + fp ≠ 0 → p = (tp : ℚ) / ((tp : ℚ) + (fp : ℚ))) ∧
        (tp + fn = 0 → r = 0) ∧ (tp + fn ≠ 0 → r = (tp : ℚ) / ((tp : ℚ) + (fn : ℚ))) ∧
        (p + r = 0 → f = 0) ∧ (0 < p + r → f = 2 * p * r / (p + r)) ∧
        (0 < p → nnr = some (1 / p)) ∧ (p = 0 → nnr = none)) := by
  by_cases hm : (joinRows scr lab).isEmpty = true
  · have hm' : joinRows scr lab = [] := by simpa using hm
    constructor
    · simp [compute_metrics, hm, hm']
    · intro tp fp fn tn p r f nnr h
      simp only [compute_metrics] at h
      rw [if_pos hm] at h
      exact absurd h (by simp)
  · constructor
    · simp only [compute_metrics]
      rw [if_neg hm]
      constructor
      · intro h
        exact absurd h (by simp)
      · intro h
        exact absurd (by simpa using h) hm
    · intro tp fp fn tn p r f nnr h
      simp only [compute_metrics] at h
      rw [if_neg hm] at h
      simp only [MetricsResult.stats.injEq] at h
      obtain ⟨htp, hfp, hfn, htn, hp, hr, hf, hnnr⟩ := h
      subst htp hfp hfn htn hp hr hf hnnr
      refine ⟨⟨?_, ?_⟩, ?_, ?_, ?_, ?_, ?_, ?_, ?_, ?_⟩
      · split_ifs with h'
        · positivity
        · exact le_refl 0
      · split_ifs with h'
        · positivity
        · exact le_refl 0
      · intro h0
        rw [if_neg (by omega)]
      · intro h0
        rw [if_pos (by omega)]
      · intro h0
        rw [if_neg (by omega)]
      · intro h0
        rw [if_pos (by omega)]
      · intro h0
        rw [if_neg (by rw [h0]; exact lt_irrefl 0)]
      · intro h0
        rw [if_pos h0]
      · intro h0
        rw [if_pos h0]
      · intro h0
        rw [if_neg (by rw [h0]; exact lt_irrefl 0)]

/-- C8 witness: spec Scenario D — truth `[1,1,0,0]` against predictions
`[1,0,0,1]` gives `tp = fp = fn = tn = 1`, precision and recall 1/2,
F1 1/2 and `nnr = 2`. -/
theorem claim_C8_witness :
    compute_metrics scrD labD = MetricsResult.stats 1 1 1 1 (1/2) (1/2) (1/2) (some 2) ∧
    ((1 + 1 : ℕ) ≠ 0 → (1/2 : ℚ) = ((1 : ℕ) : ℚ) / (((1 : ℕ) : ℚ) + ((1 : ℕ) : ℚ))) :=
  ⟨by with_unfolding_all decide,
    (((claim_C8_metrics_guarded scrD labD).2 1 1 1 1 (1/2) (1/2) (1/2) (some 2)
      (by with_unfolding_all decide)).2).2.1⟩

/-! ## Claim C9 -/

/-- C9: invoking the model-variant classifier without a loaded model fails
fast with the descriptive `RuntimeError` message rather than degrading,
and with a model present classification returns a result and no error. -/
theorem claim_C9_model_required (mp : String) (df : List Rec) (thr : ℚ) :
    screen_ml mp none df thr =
      Except.error ("Modelo não encontrado: " ++ mp ++ ". Rode 'train-ml'.") ∧
    ∀ p, ∃ out, screen_ml mp (some p) df thr = Except.ok out := by
  exact ⟨rfl, fun p => ⟨_, rfl⟩⟩

/-! ## Order properties of the sort comparison -/

/-- `Char.toNat` is injective. -/
theorem char_toNat_inj {a b : Char} (h : a.toNat = b.toNat) : a = b :=
  Char.eq_of_val_eq (UInt32.toNat.inj h)

/-- `lexLt` is irreflexive. -/
theorem lexLt_irrefl : ∀ as, lexLt as as = false
  | [] => rfl
  | a :: as => by simp [lexLt, Nat.lt_irrefl, lexLt_irrefl as]

/-- `lexLt` is transitive. -/
theorem lexLt_trans : ∀ as bs cs, lexLt as bs = true → lexLt bs cs = true →
    lexLt as cs = true := by
  intro as
  induction as with
  | nil =>
    intro bs cs h1 h2
    cases bs with
    | nil => exact absurd h1 (by simp [lexLt])
    | cons b bs =>
      cases cs with
      | nil => exact absurd h2 (by simp [lexLt])
      | cons c cs => rfl
  | cons a as ih =>
    intro bs cs h1 h2
    cases bs with
    | nil => exact absurd h1 (by simp [lexLt])
    | cons b bs =>
      cases cs with
      | nil => exact absurd h2 (by simp [lexLt])
      | cons c cs =>
        simp only [lexLt] at h1 h2 ⊢
        by_cases hab : a.toNat < b.toNat
        · by_cases hbc : b.toNat < c.toNat
          · simp [Nat.lt_trans hab hbc]
          · by_cases hcb : c.toNat < b.toNat
            · simp [hbc, hcb] at h2
            · have hac : a.toNat < c.toNat := by omega
              simp [hac]
        · by_cases hba : b.toNat < a.toNat
          · simp [hab, hba] at h1
          · rw [if_neg hab, if_neg hba] at h1
            by_cases hbc : b.toNat < c.toNat
            · have hac : a.toNat < c.toNat := by omega
              simp [hac]
            · by_cases hcb : c.toNat < b.toNat
              · simp [hbc, hcb] at h2
              · rw [if_neg hbc, if_neg hcb] at h2
                have hac : ¬ a.toNat < c.toNat := by omega
                have hca : ¬ c.toNat < a.toNat := by omega
                rw [if_neg hac, if_neg hca]
                exact ih bs cs h1 h2

/-- Lists that are mutually not-less are equal. -/
theorem lexLt_conn : ∀ as bs, lexLt as bs = false → lexLt bs as = false → as = bs := by
  intro as
  induction as with
  | nil =>
    intro bs h1 _
    cases bs with
    | nil => rfl
    | cons b bs => exact absurd h1 (by simp [lexLt])
  | cons a as ih =>
    intro bs h1 h2
    cases bs with
    | nil => exact absurd h2 (by simp [lexLt])
    | cons b bs =>
      simp only [lexLt] at h1 h2
      by_cases hab : a.toNat < b.toNat
      · simp [hab] at h1
      · by_cases hba : b.toNat < a.toNat
        · simp [hba, hab] at h2
        · rw [if_neg hab, if_neg hba] at h1
          rw [if_neg hba, if_neg hab] at h2
          have he : a = b := char_toNat_inj (by omega)
          rw [he, ih bs h1 h2]

/-- Equality of strings from equality of their character lists. -/
theorem str_data_inj {s t : String} (h : s.data = t.data) : s = t := by
  cases s
  cases t
  cases h
  rfl

/-- `strLt` is transitive. -/
theorem strLt_trans {s t u : String} (h1 : strLt s t = true) (h2 : strLt t u = true) :
    strLt s u = true :=
  lexLt_trans s.data t.data u.data h1 h2

/-- Strings that are mutually not-less are equal. -/
theorem strLt_conn {s t : String} (h1 : strLt s t = false) (h2 : strLt t s = false) :
    s = t :=
  str_data_inj (lexLt_conn s.data t.data h1 h2)

/-- `strLt` is asymmetric. -/
theorem strLt_asymm {s t : String} (h : strLt s t = true) : strLt t s = false := by
  cases hts : strLt t s
  · rfl
  · have := lexLt_trans s.data t.data s.data h hts
    rw [lexLt_irrefl s.data] at this
    exact this.symm

/-- Not-less is transitive. -/
theorem strLt_neg_trans {s t u : String} (h1 : strLt t s = false) (h2 : strLt u t = false) :
    strLt u s = false := by
  cases h : strLt u s
  · rfl
  · cases hts : strLt s t
    · have he := strLt_conn hts h1
      rw [he] at h
      exact absurd h (by rw [h2]; simp)
    · have := strLt_trans h hts
      exact absurd this (by rw [h2]; simp)

/-- The sort-key comparison is total. -/
theorem keyLe_total (a b : String × String) : keyLe a b = true ∨ keyLe b a = true := by
  cases h1 : strLt a.1 b.1
  · cases h2 : strLt b.1 a.1
    · have he : a.1 = b.1 := strLt_conn h1 h2
      cases h3 : strLt b.2 a.2
      · left
        simp [keyLe, he, strLe, h3]
      · right
        simp [keyLe, he, strLe, strLt_asymm h3]
    · right
      simp [keyLe, h2]
  · left
    simp [keyLe, h1]

/-- The sort-key comparison is transitive. -/
theorem keyLe_trans {a b c : String × String} (h1 : keyLe a b = true)
    (h2 : keyLe b c = true) : keyLe a c = true := by
  simp only [keyLe, Bool.or_eq_true, Bool.and_eq_true, beq_iff_eq] at h1 h2 ⊢
  rcases h1 with h1 | ⟨he1, hl1⟩
  · rcases h2 with h2 | ⟨he2, hl2⟩
    · exact Or.inl (strLt_trans h1 h2)
    · exact Or.inl (he2 ▸ h1)
  · rcases h2 with h2 | ⟨he2, hl2⟩
    · exact Or.inl (he1 ▸ h2)
    · refine Or.inr ⟨he1.trans he2, ?_⟩
      simp only [strLe, Bool.not_eq_true'] at hl1 hl2 ⊢
      exact strLt_neg_trans hl1 hl2

/-- Row comparison is total. -/
theorem rowLe_total (x y : Row) : rowLe x y = true ∨ rowLe y x = true :=
  keyLe_total _ _

/-- Row comparison is transitive. -/
theorem rowLe_trans {x y z : Row} (h1 : rowLe x y = true) (h2 : rowLe y z = true) :
    rowLe x z = true :=
  keyLe_trans h1 h2

/-! ## The stable insertion sort -/

/-- Membership in an insertion. -/
theorem mem_insertRow {x a : Row} : ∀ l, (a ∈ insertRow x l ↔ a = x ∨ a ∈ l) := by
  intro l
  induction l with
  | nil => simp [insertRow]
  | cons y ys ih =>
    simp only [insertRow]
    by_cases h : rowLe y x = true
    · rw [if_pos h]
      simp only [List.mem_cons, ih]
      try tauto
    · rw [if_neg h]
      simp only [List.mem_cons]
      try tauto

/-- Insertion permutes with consing. -/
theorem insertRow_perm (x : Row) : ∀ l, List.Perm (insertRow x l) (x :: l) := by
  intro l
  induction l with
  | nil => exact List.Perm.refl _
  | cons y ys ih =>
    simp only [insertRow]
    by_cases h : rowLe y x = true
    · rw [if_pos h]
      exact (List.Perm.cons y ih).trans (List.Perm.swap x y ys)
    · rw [if_neg h]

/-- The fold of insertions permutes with appending. -/
theorem foldl_insert_perm : ∀ (l acc : List Row),
    List.Perm (l.foldl (fun a x => insertRow x a) acc) (acc ++ l) := by
  intro l
  induction l with
  | nil => intro acc; simp
  | cons x xs ih =>
    intro acc
    exact (ih (insertRow x acc)).trans
      (((insertRow_perm x acc).append_right xs).trans List.perm_middle.symm)

/-- `sortRows` permutes its input. -/
theorem sortRows_perm (l : List Row) : List.Perm (sortRows l) l := by
  simpa using foldl_insert_perm l []

/-- Insertion preserves sortedness. -/
theorem pairwise_insertRow {x : Row} : ∀ {l}, l.Pairwise (fun a b => rowLe a b = true) →
    (insertRow x l).Pairwise (fun a b => rowLe a b = true) := by
  intro l h
  induction l with
  | nil => simp [insertRow]
  | cons y ys ih =>
    rcases List.pairwise_cons.mp h with ⟨hy, hys⟩
    simp only [insertRow]
    by_cases hyx : rowLe y x = true
    · rw [if_pos hyx]
      refine List.pairwise_cons.mpr ⟨?_, ih hys⟩
      intro b hb
      rcases (mem_insertRow ys).mp hb with rfl | hb
      · exact hyx
      · exact hy b hb
    · rw [if_neg hyx]
      have hxy : rowLe x y = true := (rowLe_total x y).resolve_right hyx
      refine List.pairwise_cons.mpr ⟨?_, h⟩
      intro b hb
      rcases List.mem_cons.mp hb with rfl | hb
      · exact hxy
      · exact rowLe_trans hxy (hy b hb)

/-- `sortRows` sorts. -/
theorem sortRows_sorted (l : List Row) :
    (sortRows l).Pairwise (fun a b => rowLe a b = true) := by
  have key : ∀ (m acc : List Row), acc.Pairwise (fun a b => rowLe a b = true) →
      (m.foldl (fun a x => insertRow x a) acc).Pairwise (fun a b => rowLe a b = true) := by
    intro m
    induction m with
    | nil => intro acc h; exact h
    | cons x xs ih => intro acc h; exact ih _ (pairwise_insertRow h)
  exact key l [] List.Pairwise.nil

/-- Inserting an element above everything appends it. -/
theorem insertRow_append {x : Row} : ∀ l, (∀ y ∈ l, rowLe y x = true) →
    insertRow x l = l ++ [x] := by
  intro l
  induction l with
  | nil => intro; rfl
  | cons y ys ih =>
    intro h
    simp only [insertRow]
    rw [if_pos (h y (List.mem_cons_self y ys))]
    rw [ih (fun z hz => h z (List.mem_cons_of_mem y hz))]
    rfl

/-- Sorting an already sorted list is the identity (the stable sort keeps
positional ties in place). -/
theorem sortRows_eq_self {l : List Row}
    (h : l.Pairwise (fun a b => rowLe a b = true)) : sortRows l = l := by
  have key : ∀ (m acc : List Row), (acc ++ m).Pairwise (fun a b => rowLe a b = true) →
      m.foldl (fun a x => insertRow x a) acc = acc ++ m := by
    intro m
    induction m with
    | nil => intro acc _; simp
    | cons x xs ih =>
      intro acc hall
      rcases List.pairwise_append.mp hall with ⟨h1, h2, h3⟩
      have step : insertRow x acc = acc ++ [x] :=
        insertRow_append acc (fun y hy => h3 y hy x (List.mem_cons_self x xs))
      calc (x :: xs).foldl (fun a y => insertRow y a) acc
          = xs.foldl (fun a y => insertRow y a) (insertRow x acc) := rfl
        _ = xs.foldl (fun a y => insertRow y a) (acc ++ [x]) := by rw [step]
        _ = (acc ++ [x]) ++ xs := by
            apply ih
            rw [List.append_assoc]
            simpa using hall
        _ = acc ++ x :: xs := by simp
  simpa using key l [] (by simpa using h)

/-! ## The exact-key pass -/

/-- Rows kept by `drop_duplicates` come from the input. -/
theorem dropDupFirst_subset {x : Row} : ∀ l seen, x ∈ dropDupFirst l seen → x ∈ l := by
  intro l
  induction l with
  | nil => intro seen h; exact absurd h (by simp [dropDupFirst])
  | cons y ys ih =>
    intro seen h
    simp only [dropDupFirst] at h
    split at h
    · exact List.mem_cons_of_mem y (ih _ h)
    · rcases List.mem_cons.mp h with rfl | h
      · exact List.mem_cons_self _ _
      · exact List.mem_cons_of_mem y (ih _ h)

/-- After `drop_duplicates`, keys are pairwise distinct and avoid `seen`. -/
theorem dropDupFirst_spec : ∀ (l : List Row) (seen : List String),
    (dropDupFirst l seen).Pairwise (fun a b => idkeyOf a.2 ≠ idkeyOf b.2) ∧
    ∀ x ∈ dropDupFirst l seen, idkeyOf x.2 ∉ seen := by
  intro l
  induction l with
  | nil => intro seen; simp [dropDupFirst]
  | cons y ys ih =>
    intro seen
    simp only [dropDupFirst]
    split
    · exact ih seen
    · rename_i hk
      obtain ⟨hp, hs⟩ := ih (idkeyOf y.2 :: seen)
      refine ⟨List.pairwise_cons.mpr ⟨?_, hp⟩, ?_⟩
      · intro b hb he
        exact hs b hb (he ▸ List.mem_cons_self _ _)
      · intro x hx
        rcases List.mem_cons.mp hx with rfl | hx
        · exact hk
        · exact fun hin => hs x hx (List.mem_cons_of_mem _ hin)

/-- `drop_duplicates` is the identity on rows with pairwise distinct keys
missing from `seen`. -/
theorem dropDupFirst_eq_self : ∀ (l : List Row) (seen : List String),
    (∀ x ∈ l, idkeyOf x.2 ∉ seen) →
    l.Pairwise (fun a b => idkeyOf a.2 ≠ idkeyOf b.2) →
    dropDupFirst l seen = l := by
  intro l
  induction l with
  | nil => intro seen _ _; rfl
  | cons y ys ih =>
    intro seen hseen hp
    rcases List.pairwise_cons.mp hp with ⟨hy, hys⟩
    simp only [dropDupFirst]
    rw [if_neg (hseen y (List.mem_cons_self y ys))]
    congr 1
    apply ih
    · intro x hx
      simp only [List.mem_cons, not_or]
      refine ⟨?_, hseen x (List.mem_cons_of_mem y hx)⟩
      intro he
      exact hy x hx he.symm
    · exact hys

/-- Rows surviving the exact-key pass come from the input. -/
theorem exactPass_subset {x : Row} (l : List Row) (h : x ∈ exactPass l) : x ∈ l := by
  unfold exactPass at h
  split at h
  · exact dropDupFirst_subset l [] h
  · exact h

/-- A sublist of an identifier-free collection is identifier-free. -/
theorem maskAny_false_of_subset {l l' : List Row} (h : maskAny l = false)
    (hsub : ∀ x ∈ l', x ∈ l) : maskAny l' = false := by
  cases hm : maskAny l'
  · rfl
  · exfalso
    obtain ⟨x, hx, hid⟩ := List.any_eq_true.mp hm
    have h2 : maskAny l = true := List.any_eq_true.mpr ⟨x, hsub x hx, hid⟩
    rw [h] at h2
    exact Bool.false_ne_true h2

/-! ## The fuzzy-pass loops -/

/-- The inner loop only adds indices. -/
theorem subset_innerLoop (sim : String → String → ℚ) (t : ℤ) (vi : String) {x : ℕ} :
    ∀ (items : List Item) (td : List ℕ), x ∈ td → x ∈ innerLoop sim t vi items td := by
  intro items
  induction items with
  | nil => intro td h; exact h
  | cons it rest ih =>
    intro td h
    obtain ⟨j, vj⟩ := it
    simp only [innerLoop]
    apply ih
    split
    · exact h
    · split
      · exact List.mem_cons_of_mem _ h
      · exact h

/-- The outer loop only adds indices. -/
theorem subset_outerLoop (sim : String → String → ℚ) (t : ℤ) {x : ℕ} :
    ∀ (items : List Item) (td : List ℕ), x ∈ td → x ∈ outerLoop sim t items td := by
  intro items
  induction items with
  | nil => intro td h; exact h
  | cons it rest ih =>
    intro td h
    obtain ⟨i, vi⟩ := it
    simp only [outerLoop]
    apply ih
    split
    · exact h
    · exact subset_innerLoop sim t vi rest td h

/-- The bucket fold only adds indices. -/
theorem subset_foldDrops (sim : String → String → ℚ) (t : ℤ) {x : ℕ} :
    ∀ (bs : List (String × List Item)) (td : List ℕ), x ∈ td →
      x ∈ bs.foldl (fun td b => outerLoop sim t b.2 td) td := by
  intro bs
  induction bs with
  | nil => intro td h; exact h
  | cons b rest ih =>
    intro td h
    exact ih _ (subset_outerLoop sim t b.2 td h)

/-- The inner loop is inert when nothing matches the pivot. -/
theorem innerLoop_nomatch (sim : String → String → ℚ) (t : ℤ) (vi : String) :
    ∀ (items : List Item) (td : List ℕ),
      (∀ it ∈ items, matchesAt sim t vi it.2 = false) →
      innerLoop sim t vi items td = td := by
  intro items
  induction items with
  | nil => intro td _; rfl
  | cons it rest ih =>
    intro td h
    obtain ⟨j, vj⟩ := it
    have hj : matchesAt sim t vi vj = false := h (j, vj) (List.mem_cons_self _ _)
    simp only [innerLoop]
    have harg : (if j ∈ td then td else if matchesAt sim t vi vj then j :: td else td) = td := by
      split
      · rfl
      · split
        · rename_i hm
          rw [hj] at hm
          exact absurd hm (by simp)
        · rfl
    rw [harg]
    exact ih td (fun x hx => h x (List.mem_cons_of_mem _ hx))

/-- The outer loop is inert on a bucket with no matching ordered pair. -/
theorem outerLoop_nomatch (sim : String → String → ℚ) (t : ℤ) :
    ∀ (items : List Item) (td : List ℕ),
      items.Pairwise (fun a b => matchesAt sim t a.2 b.2 = false) →
      outerLoop sim t items td = td := by
  intro items
  induction items with
  | nil => intro td _; rfl
  | cons it rest ih =>
    intro td h
    obtain ⟨i, vi⟩ := it
    rcases List.pairwise_cons.mp h with ⟨hhead, htail⟩
    simp only [outerLoop]
    have harg : (if i ∈ td then td else innerLoop sim t vi rest td) = td := by
      split
      · rfl
      · exact innerLoop_nomatch sim t vi rest td (fun b hb => hhead b hb)
    rw [harg]
    exact ih td htail

/-- The whole fuzzy pass is inert when every bucket is pairwise
non-matching. -/
theorem foldDrops_nomatch (sim : String → String → ℚ) (t : ℤ) :
    ∀ (bs : List (String × List Item)) (td : List ℕ),
      (∀ b ∈ bs, b.2.Pairwise (fun a c => matchesAt sim t a.2 c.2 = false)) →
      bs.foldl (fun td b => outerLoop sim t b.2 td) td = td := by
  intro bs
  induction bs with
  | nil => intro td _; rfl
  | cons b rest ih =>
    intro td h
    have hb := outerLoop_nomatch sim t b.2 td (h b (List.mem_cons_self _ _))
    simp only [List.foldl_cons, hb]
    exact ih td (fun c hc => h c (List.mem_cons_of_mem _ hc))

/-- An item not dropped by the inner loop does not match the pivot. -/
theorem innerLoop_compat (sim : String → String → ℚ) (t : ℤ) (vi : String) :
    ∀ (items : List Item) (td : List ℕ) (j : ℕ) (vj : String),
      (j, vj) ∈ items → j ∉ innerLoop sim t vi items td →
      matchesAt sim t vi vj = false := by
  intro items
  induction items with
  | nil => intro td j vj h _; exact absurd h (by simp)
  | cons it rest ih =>
    intro td j vj hmem hnot
    obtain ⟨k, vk⟩ := it
    simp only [innerLoop] at hnot
    rcases List.mem_cons.mp hmem with he | hmem'
    · cases he
      cases hmatch : matchesAt sim t vi vj
      · rfl
      · exfalso
        apply hnot
        apply subset_innerLoop
        by_cases h1 : j ∈ td
        · rw [if_pos h1]
          exact h1
        · rw [if_neg h1, if_pos hmatch]
          exact List.mem_cons_self _ _
    · exact ih _ j vj hmem' hnot

/-- Two items of one bucket that both survive the outer loop do not match:
the earlier one was compared against the later one and fell below the
threshold. -/
theorem outerLoop_compat (sim : String → String → ℚ) (t : ℤ) :
    ∀ (items : List Item) (td : List ℕ),
      items.Pairwise (fun a b => a.1 ∉ outerLoop sim t items td →
        b.1 ∉ outerLoop sim t items td → matchesAt sim t a.2 b.2 = false) := by
  intro items
  induction items with
  | nil => intro td; exact List.Pairwise.nil
  | cons it rest ih =>
    intro td
    obtain ⟨i, vi⟩ := it
    refine List.pairwise_cons.mpr ⟨?_, ?_⟩
    · intro b hb hnoti hnotb
      by_cases hitd : i ∈ td
      · exfalso
        apply hnoti
        show i ∈ outerLoop sim t rest (if i ∈ td then td else innerLoop sim t vi rest td)
        apply subset_outerLoop
        rw [if_pos hitd]
        exact hitd
      · have h1 : outerLoop sim t ((i, vi) :: rest) td =
            outerLoop sim t rest (innerLoop sim t vi rest td) := by
          show outerLoop sim t rest (if i ∈ td then td else innerLoop sim t vi rest td) = _
          rw [if_neg hitd]
        have hbnot : b.1 ∉ innerLoop sim t vi rest td := by
          intro hin
          apply hnotb
          rw [h1]
          exact subset_outerLoop sim t rest _ hin
        exact innerLoop_compat sim t vi rest td b.1 b.2 hb hbnot
    · exact ih (if i ∈ td then td else innerLoop sim t vi rest td)

/-! ## The bucket dictionary -/

/-- The keys after `addBucket`. -/
theorem addBucket_keys : ∀ (bs : List (String × List Item)) (k : String) (it : Item),
    (addBucket bs k it).map Prod.fst =
      if k ∈ bs.map Prod.fst then bs.map Prod.fst else bs.map Prod.fst ++ [k] := by
  intro bs
  induction bs with
  | nil => intro k it; simp [addBucket]
  | cons b rest ih =>
    intro k it
    obtain ⟨k', items⟩ := b
    simp only [addBucket]
    by_cases he : k' = k
    · subst he
      rw [if_pos rfl]
      simp
    · rw [if_neg he]
      have he' : ¬ k = k' := fun h => he h.symm
      by_cases hk : k ∈ rest.map Prod.fst
      · simp [ih, hk, he']
      · simp [ih, hk, he']

/-- `addBucket` preserves the bucket characterisation. -/
theorem addBucket_char : ∀ (bs : List (String × List Item)) (k : String) (it : Item)
    (p : List Item), bKey it = k →
    (∀ kb ∈ bs, kb.2 = p.filter fun x => bKey x == kb.1) →
    ((bs.map Prod.fst).Nodup) →
    (k ∉ bs.map Prod.fst → p.filter (fun x => bKey x == k) = []) →
    ∀ kb ∈ addBucket bs k it, kb.2 = (p ++ [it]).filter fun x => bKey x == kb.1 := by
  intro bs
  induction bs with
  | nil =>
    intro k it p hk hchar hnod hnew kb hkb
    simp only [addBucket, List.mem_singleton] at hkb
    subst hkb
    simp only
    rw [List.filter_append, hnew (by simp)]
    simp [hk]
  | cons b rest ih =>
    intro k it p hk hchar hnod hnew kb hkb
    obtain ⟨k', items⟩ := b
    simp only [addBucket] at hkb
    by_cases he : k' = k
    · subst he
      rw [if_pos rfl] at hkb
      rcases List.mem_cons.mp hkb with rfl | hkb'
      · simp only
        rw [List.filter_append]
        have hc := hchar (k', items) (List.mem_cons_self _ _)
        simp only at hc
        rw [← hc]
        congr 1
        simp [hk]
      · have hc := hchar kb (List.mem_cons_of_mem _ hkb')
        rw [List.filter_append, ← hc]
        have hk'nin : k' ∉ rest.map Prod.fst := by
          have := hnod
          simp only [List.map_cons, List.nodup_cons] at this
          exact this.1
        have hne : kb.1 ≠ k' := by
          intro h
          exact hk'nin (h ▸ List.mem_map_of_mem Prod.fst hkb')
        have hne' : ¬ (k' = kb.1) := fun h => hne h.symm
        simp [hk, hne']
    · rw [if_neg he] at hkb
      rcases List.mem_cons.mp hkb with rfl | hkb'
      · have hc := hchar (k', items) (List.mem_cons_self _ _)
        simp only at hc ⊢
        rw [List.filter_append, ← hc]
        have hne : ¬ (k = k') := fun h => he h.symm
        simp [hk, hne]
      · apply ih k it p hk ?_ ?_ ?_ kb hkb'
        · intro kb' hkb''
          exact hchar kb' (List.mem_cons_of_mem _ hkb'')
        · have := hnod
          simp only [List.map_cons, List.nodup_cons] at this
          exact this.2
        · intro hknin
          apply hnew
          simp only [List.map_cons, List.mem_cons, not_or]
          exact ⟨fun h => he h.symm, hknin⟩

/-- `addBucket` preserves the full invariant. -/
theorem addBucket_inv {p : List Item} {bs : List (String × List Item)} (it : Item)
    (h : bucketsInv p bs) : bucketsInv (p ++ [it]) (addBucket bs (bKey it) it) := by
  obtain ⟨hchar, hnod, hnew⟩ := h
  refine ⟨?_, ?_, ?_⟩
  · exact addBucket_char bs (bKey it) it p rfl hchar hnod (hnew (bKey it))
  · rw [addBucket_keys]
    split
    · exact hnod
    · rename_i hnin
      refine List.Nodup.append hnod (List.nodup_singleton _) ?_
      intro a ha hb
      simp only [List.mem_singleton] at hb
      subst hb
      exact hnin ha
  · intro k0 hk0
    rw [addBucket_keys] at hk0
    have hmem : bKey it ∈ (addBucket bs (bKey it) it).map Prod.fst := by
      rw [addBucket_keys]
      split
      · assumption
      · simp
    have h1 : k0 ∉ bs.map Prod.fst := by
      intro h
      apply hk0
      split
      · exact h
      · exact List.mem_append_left _ h
    have h2 : k0 ≠ bKey it := by
      intro h
      subst h
      split at hk0
      · exact hk0 (by assumption)
      · exact hk0 (List.mem_append_right _ (by simp))
    rw [List.filter_append, hnew k0 h1]
    simp only [List.nil_append]
    have : ¬ (bKey it = k0) := fun h => h2 h.symm
    simp [this]

/-- The bucket fold maintains the invariant. -/
theorem bucketsInv_fold : ∀ (xs p : List Item) (bs : List (String × List Item)),
    bucketsInv p bs →
    bucketsInv (p ++ xs) (xs.foldl (fun bs it => addBucket bs (bKey it) it) bs) := by
  intro xs
  induction xs with
  | nil => intro p bs h; simpa using h
  | cons x rest ih =>
    intro p bs h
    have step := addBucket_inv x h
    have := ih (p ++ [x]) _ step
    simpa [List.append_assoc] using this

/-- The bucket dictionary of lines 250-252 groups the items exactly by
their 20-character title prefix. -/
theorem mkBuckets_inv (xs : List Item) : bucketsInv xs (mkBuckets xs) := by
  have h0 : bucketsInv [] ([] : List (String × List Item)) := by
    refine ⟨by simp, by simp, by simp⟩
  simpa using bucketsInv_fold xs [] [] h0

/-! ## Filter and map bookkeeping -/

/-- Filtering on the index commutes with attaching the normalised title. -/
theorem map_norm_filter (p : ℕ → Bool) : ∀ l : List Row,
    ((l.filter fun x => p x.1).map fun y => (y.1, title_norm y.2)) =
      ((l.map fun y => (y.1, title_norm y.2)).filter fun it => p it.1) := by
  intro l
  induction l with
  | nil => rfl
  | cons x xs ih =>
    by_cases h : p x.1
    · simp [List.filter_cons, h, ih]
    · simp [List.filter_cons, h, ih]

/-! ## Idempotence of deduplication -/

/-- Running the deduplication pipeline a second time removes nothing: the
exact-key pass sees pairwise distinct keys (or no keys at all), the sort
sees an already sorted list, and every same-bucket pair of survivors was
compared below threshold during the first run. -/
theorem dedupRows_idem (sim : String → String → ℚ) (t : ℤ) (rows : List Row) :
    dedupRows sim t (dedupRows sim t rows) = dedupRows sim t rows := by
  set S1 := sortRows (exactPass rows) with hS1
  set items1 := S1.map (fun y => (y.1, title_norm y.2)) with hitems1
  set td1 := allDrops sim t (mkBuckets items1) with htd1def
  set K := S1.filter (fun x => decide (x.1 ∉ td1)) with hKdef
  have hmemK : ∀ x ∈ K, x ∈ rows := by
    intro x hx
    have hx1 : x ∈ S1 := List.mem_of_mem_filter hx
    have hx2 : x ∈ exactPass rows := (sortRows_perm (exactPass rows)).mem_iff.mp hx1
    exact exactPass_subset rows hx2
  have hA : exactPass K = K := by
    unfold exactPass
    by_cases hm2 : maskAny K = true
    · rw [if_pos hm2]
      apply dropDupFirst_eq_self K []
      · intro x _
        simp
      · by_cases hm1 : maskAny rows = true
        · have hp1 : (exactPass rows).Pairwise (fun a b => idkeyOf a.2 ≠ idkeyOf b.2) := by
            unfold exactPass
            rw [if_pos hm1]
            exact (dropDupFirst_spec rows []).1
          have hpS : S1.Pairwise (fun a b => idkeyOf a.2 ≠ idkeyOf b.2) :=
            ((sortRows_perm (exactPass rows)).pairwise_iff
              (by intro a b h; exact Ne.symm h)).mpr hp1
          exact hpS.filter _
        · exfalso
          have hm1' : maskAny rows = false := by
            cases h : maskAny rows
            · rfl
            · exact absurd h hm1
          have hfK : maskAny K = false := maskAny_false_of_subset hm1' hmemK
          rw [hfK] at hm2
          exact Bool.false_ne_true hm2
    · rw [if_neg hm2]
  have hsorted : K.Pairwise (fun a b => rowLe a b = true) :=
    (sortRows_sorted (exactPass rows)).filter _
  have hB : sortRows K = K := sortRows_eq_self hsorted
  have hitems2 : K.map (fun y => (y.1, title_norm y.2)) =
      items1.filter (fun it => decide (it.1 ∉ td1)) :=
    map_norm_filter (fun n => decide (n ∉ td1)) S1
  have hC : allDrops sim t (mkBuckets (K.map fun y => (y.1, title_norm y.2))) = [] := by
    apply foldDrops_nomatch
    intro b hb
    have hchar2 := (mkBuckets_inv (K.map fun y => (y.1, title_norm y.2))).1 b hb
    rw [hchar2, hitems2, List.filter_comm]
    by_cases hkmem : b.1 ∈ (mkBuckets items1).map Prod.fst
    · obtain ⟨kb1, hkb1, hfst⟩ := List.mem_map.mp hkmem
      have hchar1 := (mkBuckets_inv items1).1 kb1 hkb1
      obtain ⟨pre, post, hsplit⟩ := List.append_of_mem hkb1
      have htd1 : td1 = post.foldl (fun td bb => outerLoop sim t bb.2 td)
          (outerLoop sim t kb1.2
            (pre.foldl (fun td bb => outerLoop sim t bb.2 td) [])) := by
        rw [htd1def]
        simp only [allDrops]
        rw [hsplit, List.foldl_append, List.foldl_cons]
      have hmidsub : ∀ x ∈ outerLoop sim t kb1.2
          (pre.foldl (fun td bb => outerLoop sim t bb.2 td) []), x ∈ td1 := by
        intro x hx
        rw [htd1]
        exact subset_foldDrops sim t post _ hx
      have hcompat := outerLoop_compat sim t kb1.2
        (pre.foldl (fun td bb => outerLoop sim t bb.2 td) [])
      have hB1 : items1.filter (fun it => bKey it == b.1) = kb1.2 := by
        rw [hchar1, hfst]
      rw [hB1]
      have hpair2 := hcompat.filter (fun it => decide (it.1 ∉ td1))
      refine hpair2.imp_of_mem ?_
      intro a c ha hc hrel
      have ha' : a.1 ∉ td1 := by
        have h0 := List.of_mem_filter ha
        simpa using h0
      have hc' : c.1 ∉ td1 := by
        have h0 := List.of_mem_filter hc
        simpa using h0
      exact hrel (fun hin => ha' (hmidsub _ hin)) (fun hin => hc' (hmidsub _ hin))
    · rw [(mkBuckets_inv items1).2.2 b.1 hkmem]
      simp
  show (sortRows (exactPass K)).filter (fun x => decide (x.1 ∉ allDrops sim t (mkBuckets
    ((sortRows (exactPass K)).map fun y => (y.1, title_norm y.2))))) = K
  rw [hA, hB, hC]
  apply List.filter_eq_self.mpr
  intro a _
  exact decide_eq_true (List.not_mem_nil _)

/-! ## Claim C5 -/

/-- C5: deduplication is idempotent — applying `deduplicate` to its own
output at the same threshold returns the very same frame and reports zero
removed duplicates. -/
theorem claim_C5_idempotent (t : ℤ) (df : Frame) :
    deduplicate token_set_ratio t (deduplicate token_set_ratio t df).1 =
      ((deduplicate token_set_ratio t df).1, 0) := by
  have h := dedupRows_idem token_set_ratio t df.rows
  show (Frame.mk (dedupRows token_set_ratio t (dedupRows token_set_ratio t df.rows)),
      (dedupRows token_set_ratio t df.rows).length -
        (dedupRows token_set_ratio t (dedupRows token_set_ratio t df.rows)).length) =
    (Frame.mk (dedupRows token_set_ratio t df.rows), 0)
  rw [h, Nat.sub_self]

/-! ## Claim C10 -/

/-- C10: the rows returned by `deduplicate` are in ascending order of the
pair (normalised title, source) — the output order is produced by the
unconditional sort of line 249, not by the input order — and every output
row is one of the input rows. -/
theorem claim_C10_sorted_output (t : ℤ) (df : Frame) :
    List.Pairwise (fun a b => rowLe a b = true)
      (deduplicate token_set_ratio t df).1.rows ∧
    ∀ x ∈ (deduplicate token_set_ratio t df).1.rows, x ∈ df.rows := by
  constructor
  · show List.Pairwise (fun a b => rowLe a b = true)
      ((sortRows (exactPass df.rows)).filter (fun x =>
        decide (x.1 ∉ allDrops token_set_ratio t
          (mkBuckets ((sortRows (exactPass df.rows)).map fun y => (y.1, title_norm y.2))))))
    exact (sortRows_sorted (exactPass df.rows)).filter _
  · intro x hx
    have hx1 : x ∈ sortRows (exactPass df.rows) := List.mem_of_mem_filter hx
    have hx2 : x ∈ exactPass df.rows :=
      (sortRows_perm (exactPass df.rows)).mem_iff.mp hx1
    exact exactPass_subset df.rows hx2

/-- C10 witness: on `frameC2` at threshold 95 the first record survives and
is indeed one of the input rows. -/
theorem claim_C10_witness :
    ((0, mkTitleRec "s" "aaaaaaaaaaaaaaaaaaaa b qqqqqqqqqqu") ∈
      (deduplicate token_set_ratio 95 frameC2).1.rows) ∧
    (0, mkTitleRec "s" "aaaaaaaaaaaaaaaaaaaa b qqqqqqqqqqu") ∈ frameC2.rows :=
  ⟨by with_unfolding_all decide,
    (claim_C10_sorted_output 95 frameC2).2 _ (by with_unfolding_all decide)⟩

end SysRev
